import Mathlib

set_option maxRecDepth 100000

/-!
Shallow embedding of `pyfuck/png.py`: a restricted PNG decoder.

Bytes are modelled as `Nat` (each value is below 256 wherever the source
guarantees it).  A file's contents are a `List Nat`; an unopenable path is
modelled as the absence of contents (`Option`).  Python exceptions become an
explicit error type.  The zlib decompression primitive is an external,
standard library; the decoder is parameterised over it (`none` models
`zlib.error`).  `zlib.crc32` is embedded directly as the standard reflected
CRC-32 so checksum validation is executable.
-/

/-- Model of `int.from_bytes(bs, "big")`: big-endian interpretation of a byte list. -/
def fromBytesBE (bs : List Nat) : Nat := bs.foldl (fun a b => a * 256 + b) 0

/-- The magic constant `PNG.SIGNATURE`. -/
def SIGNATURE : List Nat := [137, 80, 78, 71, 13, 10, 26, 10]

/-- The ASCII bytes of the tag `b"IHDR"`. -/
def ihdrTag : List Nat := [73, 72, 68, 82]

/-- The ASCII bytes of the tag `b"IEND"`. -/
def iendTag : List Nat := [73, 69, 78, 68]

/-- One bit step of the reflected CRC-32 used by `zlib.crc32`. -/
def crc32Step (c : Nat) : Nat :=
  if c % 2 = 1 then (c / 2) ^^^ 0xEDB88320 else c / 2

/-- Feed one byte into the reflected CRC-32 state. -/
def crc32Byte (c b : Nat) : Nat := crc32Step^[8] (c ^^^ b)

/-- Model of `zlib.crc32(bs)`: the standard CRC-32 checksum. -/
def crc32 (bs : List Nat) : Nat :=
  (bs.foldl crc32Byte 0xFFFFFFFF) ^^^ 0xFFFFFFFF

/-- The Python exceptions the decoder can raise, by kind.  `validation`
collects the `ValidationException` raises of `_parse` and `Chunk.__init__`,
distinguished by the violated expectation the message describes. -/
inductive VKind where
  /-- message: the file is not a valid PNG image (signature) -/
  | signatureMismatch
  /-- message: unexpected file end (caught `StopIteration` on a length read) -/
  | unexpectedEnd
  /-- message of `Chunk.__init__`: the chunk is not valid (CRC / tag length) -/
  | chunkInvalid
  /-- message: the file is not a simplified PNG (profile check) -/
  | unsupportedProfile
  /-- message: PNG data cannot be decompressed (caught `zlib.error`) -/
  | decompressionFailure
deriving Repr, DecidableEq

/-- Errors escaping `PNG.__init__`. -/
inductive PyErr where
  /-- `pyfuck.png.ValidationException` raised by `err` or `Chunk.__init__` -/
  | validation (k : VKind)
  /-- a `StopIteration` from `reader.send` outside the single `try` block,
  propagating uncaught out of `_parse` -/
  | stopIteration
  /-- `AttributeError`: `self.header` was never assigned before
  `self.header.isSimplified()` is evaluated -/
  | attributeError
  /-- `FileNotFoundError` from `open(self.filename, "rb")` -/
  | fileNotFound
deriving Repr, DecidableEq

/-- Stored attributes of `Chunk.__init__`: `len`, `type`, `data` as given,
`crc` already parsed from its 4 bytes. -/
structure Chunk where
  len : Nat
  type : List Nat
  data : List Nat
  crc : Nat
deriving Repr, DecidableEq

/-- Model of `Chunk._parseInt(bytes, start, len)`:
`int.from_bytes(bytes[start:start+len], "big")`. -/
def parseIntBytes (bytes : List Nat) (start : Nat) (len : Nat) : Nat :=
  fromBytesBE ((bytes.drop start).take len)

/-- Model of `Chunk.isValid`: the tag is 4 bytes long and the stored CRC equals the
CRC-32 of tag ++ data.  (`float(self.len).is_integer()` is identically true
for an integer length and is omitted.) -/
def Chunk.isValid (c : Chunk) : Bool :=
  c.type.length == 4 && c.crc == crc32 (c.type ++ c.data)

/-- Model of `Chunk(len, type, data, crc)`: store attributes, parse the CRC field,
and fail with `ValidationException` unless `isValid`. -/
def mkChunk (len : Nat) (type data crcBytes : List Nat) : Except PyErr Chunk :=
  if (Chunk.mk len type data (parseIntBytes crcBytes 0 4)).isValid
  then .ok ⟨len, type, data, parseIntBytes crcBytes 0 4⟩
  else .error (.validation .chunkInvalid)

/-- An `IHDR` chunk: a `Chunk` plus the seven header fields parsed from fixed
offsets of the payload. -/
structure IHDR extends Chunk where
  width : Nat
  height : Nat
  depth : Nat
  colour : Nat
  compression : Nat
  filter : Nat
  interlace : Nat
deriving Repr, DecidableEq

/-- Model of `IHDR(data, crc)`: `Chunk.__init__(13, b"IHDR", data, crc)` (note the
hard-coded length 13, whatever length the file declared), then the fields
from offsets 0,4,8,9,10,11,12 of `data`. -/
def mkIHDR (data crcBytes : List Nat) : Except PyErr IHDR :=
  match mkChunk 13 ihdrTag data crcBytes with
  | .error e => .error e
  | .ok c =>
    .ok { toChunk := c,
          width := parseIntBytes data 0 4,
          height := parseIntBytes data 4 4,
          depth := parseIntBytes data 8 1,
          colour := parseIntBytes data 9 1,
          compression := parseIntBytes data 10 1,
          filter := parseIntBytes data 11 1,
          interlace := parseIntBytes data 12 1 }

/-- Model of `IHDR.isSimplified`: the supported-profile predicate.  (`not x` on a
Python int is `x == 0`.) -/
def IHDR.isSimplified (h : IHDR) : Bool :=
  h.depth == 8 && h.colour == 2 && h.compression == 0 && h.filter == 0
    && h.interlace == 0

/-- One `reader.send(n)` of the `PNG._reader` generator over the remaining
file bytes.  `f.read(m)` returns *up to* `m` bytes; the generator loop exits
(and `send` raises `StopIteration`, modelled as `none`) exactly when the
read comes back empty, i.e. when no bytes remain.  The generator replaces a
falsy requested count by 1 (`if not howMuch: howMuch = 1`). -/
def readerSend (rest : List Nat) (n : Nat) : Option (List Nat × List Nat) :=
  if rest.isEmpty then none
  else some (rest.take (if n = 0 then 1 else n), rest.drop (if n = 0 then 1 else n))

/-- The data-read step of the chunk loop: `reader.send(len)` when `len > 0`,
else `data = b""` with no read. -/
def readData (rest : List Nat) (len : Nat) : Option (List Nat × List Nat) :=
  if 0 < len then readerSend rest len else some ([], rest)

/-- The `while True` chunk loop of `PNG._parse`, with the accumulated
`self.header` (an attribute only once assigned) and `self.chunks`.  The loop
consumes at least one byte of `rest` per iteration, so it is presented with
a fuel argument; any fuel above `rest.length` yields the loop's true result
(see `parseLoopF_congr`), and `parsePng` supplies such a fuel.  Only the
length read is inside a `try`; a `StopIteration` anywhere else escapes. -/
def parseLoopF : Nat → List Nat → Option IHDR → List Chunk →
    Except PyErr (Option IHDR × List Chunk)
  | 0, _, _, _ => .error .stopIteration
  | (fuel+1), rest, header, chunks =>
    match readerSend rest 4 with
    | none => .error (.validation .unexpectedEnd)
    | some (lenBytes, r1) =>
      -- `len = int.from_bytes(...)`, used for the data read and the Chunk
      match readerSend r1 4 with
      | none => .error .stopIteration
      | some (typeBytes, r2) =>
        match readData r2 (fromBytesBE lenBytes) with
        | none => .error .stopIteration
        | some (data, r3) =>
          match readerSend r3 4 with
          | none => .error .stopIteration
          | some (crcBytes, r4) =>
            if typeBytes = ihdrTag then
              match mkIHDR data crcBytes with
              | .error e => .error e
              | .ok h => parseLoopF fuel r4 (some h) chunks
            else if typeBytes = iendTag then
              .ok (header, chunks)
            else
              match mkChunk (fromBytesBE lenBytes) typeBytes data crcBytes with
              | .error e => .error e
              | .ok c => parseLoopF fuel r4 header (chunks ++ [c])

/-- Signature check and chunk loop of `PNG._parse` over the file contents:
read 8 bytes (an empty read here is an uncaught `StopIteration`), compare
with the signature, then run the chunk loop on the remainder. -/
def parsePng (file : List Nat) : Except PyErr (Option IHDR × List Chunk) :=
  match readerSend file 8 with
  | none => .error .stopIteration
  | some (sig, rest) =>
    if sig = SIGNATURE then parseLoopF (rest.length + 1) rest none []
    else .error (.validation .signatureMismatch)

/-- Python `range(start, stop, step)` for a positive step. -/
def pythonRange (start stop step : Nat) : List Nat :=
  (List.range ((stop - start + step - 1) / step)).map (fun i => start + i * step)

/-- The pixel-matrix comprehension of `PNG._parse`: for each row `y` below
the header height, for each `x` in `range(1, lineLength, 3)`, the slice
`decompressed[y*lineLength+x : y*lineLength+x+3]` (a Python slice clamps at
the end of the list). -/
def buildPixels (decompressed : List Nat) (width height : Nat) :
    List (List (List Nat)) :=
  let lineLength := 1 + width * 3
  (List.range height).map fun y =>
    (pythonRange 1 lineLength 3).map fun x =>
      (decompressed.drop (y * lineLength + x)).take 3

/-- The attributes a successful `PNG.__init__` leaves on the object
(the filename, which never influences parsing, is omitted). -/
structure PngImage where
  header : IHDR
  chunks : List Chunk
  decompressed : List Nat
  pixels : List (List (List Nat))
deriving Repr, DecidableEq

/-- Model of `PNG(filename)`: the whole decode.  `inflate` is the external
`zlib.decompress` primitive (`none` models a raise of `zlib.error`); `file?`
is the contents of the file, or `none` when the path cannot be opened
(`FileNotFoundError` escapes before any parsing).  After the chunk loop the
profile is checked (`AttributeError` if no header chunk was ever seen), the
non-header non-terminal payloads are joined and decompressed, and the pixel
matrix is built. -/
def decode (inflate : List Nat → Option (List Nat))
    (file? : Option (List Nat)) : Except PyErr PngImage :=
  match file? with
  | none => .error .fileNotFound
  | some file =>
    match parsePng file with
    | .error e => .error e
    | .ok (none, _) => .error .attributeError
    | .ok (some header, chunks) =>
      if header.isSimplified then
        match inflate ((chunks.map Chunk.data).flatten) with
        | none => .error (.validation .decompressionFailure)
        | some d => .ok ⟨header, chunks, d, buildPixels d header.width header.height⟩
      else .error (.validation .unsupportedProfile)

/-! Concrete fixtures.

A minimal valid 1×1 image (supported profile, correct checksums), used to
exercise the theorems on concrete inputs, and variants of it. -/

/-- The ASCII bytes of the tag `b"IDAT"`. -/
def idatTag : List Nat := [73, 68, 65, 84]

/-- Payload of a 1×1 header: width 1, height 1, depth 8, colour 2,
compression 0, filter 0, interlace 0. -/
def ihdrData1 : List Nat := [0, 0, 0, 1, 0, 0, 0, 1, 8, 2, 0, 0, 0]

/-- Big-endian CRC-32 bytes of `ihdrTag ++ ihdrData1`. -/
def ihdrCrc1 : List Nat := [144, 119, 83, 222]

/-- Big-endian CRC-32 bytes of a bare `idatTag` (empty payload). -/
def idatCrc0 : List Nat := [53, 175, 6, 30]

/-- Big-endian CRC-32 bytes of a bare `iendTag` (empty payload). -/
def iendCrc0 : List Nat := [174, 66, 96, 130]

/-- A minimal well-formed file: signature, 1×1 IHDR, empty IDAT, IEND,
all three CRCs correct. -/
def validFile : List Nat :=
  SIGNATURE ++ [0, 0, 0, 13] ++ ihdrTag ++ ihdrData1 ++ ihdrCrc1
    ++ [0, 0, 0, 0] ++ idatTag ++ idatCrc0
    ++ [0, 0, 0, 0] ++ iendTag ++ iendCrc0

/-- Variant of `validFile` except that the terminal chunk's CRC field is zeroed
(incorrect: the CRC-32 of the bare `iendTag` is nonzero). -/
def fileBadIend : List Nat :=
  SIGNATURE ++ [0, 0, 0, 13] ++ ihdrTag ++ ihdrData1 ++ ihdrCrc1
    ++ [0, 0, 0, 0] ++ idatTag ++ idatCrc0
    ++ [0, 0, 0, 0] ++ iendTag ++ [0, 0, 0, 0]

/-- Variant of `validFile` with the IDAT chunk moved in front of the IHDR chunk: the
first chunk of the file is not the header chunk. -/
def fileIdatFirst : List Nat :=
  SIGNATURE ++ [0, 0, 0, 0] ++ idatTag ++ idatCrc0
    ++ [0, 0, 0, 13] ++ ihdrTag ++ ihdrData1 ++ ihdrCrc1
    ++ [0, 0, 0, 0] ++ iendTag ++ iendCrc0

/-- A file whose only chunk is the terminal chunk: no header chunk at all
(the terminal chunk's CRC field is ignored by the parser). -/
def fileNoHeader : List Nat :=
  SIGNATURE ++ [0, 0, 0, 0] ++ iendTag ++ [0, 0, 0, 0]

/-- The header object parsed from the 1×1 fixtures. -/
def hdr1 : IHDR :=
  ⟨⟨13, ihdrTag, ihdrData1, 2423739358⟩, 1, 1, 8, 2, 0, 0, 0⟩

/-- The single data chunk of the 1×1 fixtures. -/
def chunk1 : Chunk := ⟨0, idatTag, [], 900662814⟩

/-- A decompression oracle that always succeeds with one 1×1 scanline:
filter byte 0 followed by the RGB triple (7, 8, 9). -/
def inflConst : List Nat → Option (List Nat) := fun _ => some [0, 7, 8, 9]

/-- A decompression oracle that always fails (always raises `zlib.error`). -/
def inflFail : List Nat → Option (List Nat) := fun _ => none

/-- The image `decode inflConst` produces from the 1×1 fixtures. -/
def img1 : PngImage := ⟨hdr1, [chunk1], [0, 7, 8, 9], [[[7, 8, 9]]]⟩

/-! Helper lemmas about the reader. -/

theorem readerSend_eq_some {rest : List Nat} {n : Nat} {bs r : List Nat}
    (h : readerSend rest n = some (bs, r)) :
    rest ≠ [] ∧ bs = rest.take (if n = 0 then 1 else n)
      ∧ r = rest.drop (if n = 0 then 1 else n) := by
  unfold readerSend at h
  split at h
  · exact absurd h (by simp)
  · next he =>
    simp only [Option.some.injEq, Prod.mk.injEq] at h
    exact ⟨by simpa using he, h.1.symm, h.2.symm⟩

theorem readerSend_length_lt {rest : List Nat} {n : Nat} {bs r : List Nat}
    (h : readerSend rest n = some (bs, r)) : r.length < rest.length := by
  obtain ⟨hne, -, hr⟩ := readerSend_eq_some h
  have hlen : 0 < rest.length := List.length_pos.mpr hne
  subst hr
  rw [List.length_drop]
  split <;> omega

theorem readData_length_le {rest : List Nat} {n : Nat} {bs r : List Nat}
    (h : readData rest n = some (bs, r)) : r.length ≤ rest.length := by
  unfold readData at h
  split at h
  · exact le_of_lt (readerSend_length_lt h)
  · simp only [Option.some.injEq, Prod.mk.injEq] at h
    rw [← h.2]

/-- The fuel presentation of the chunk loop is faithful: any two fuels
strictly above the number of remaining bytes give the same result, because
every loop iteration consumes at least one byte. -/
theorem parseLoopF_congr : ∀ (f g : Nat) (rest : List Nat) (h : Option IHDR)
    (c : List Chunk), rest.length < f → rest.length < g →
    parseLoopF f rest h c = parseLoopF g rest h c := by
  intro f
  induction f with
  | zero => intro g rest h c hf; omega
  | succ f ih =>
    intro g rest h c hf hg
    cases g with
    | zero => omega
    | succ g =>
      simp only [parseLoopF]
      split
      · rfl
      · next lenBytes r1 h1 =>
        have hr1 : r1.length < rest.length := readerSend_length_lt h1
        split
        · rfl
        · next typeBytes r2 h2 =>
          have hr2 : r2.length < r1.length := readerSend_length_lt h2
          split
          · rfl
          · next data r3 h3 =>
            have hr3 : r3.length ≤ r2.length := readData_length_le h3
            split
            · rfl
            · next crcBytes r4 h4 =>
              have hr4 : r4.length < r3.length := readerSend_length_lt h4
              split
              · split
                · rfl
                · exact ih g r4 _ c (by omega) (by omega)
              · split
                · rfl
                · split
                  · rfl
                  · exact ih g r4 h _ (by omega) (by omega)

/-! Invariants of the chunk loop. -/

/-- What `Chunk.__init__` guarantees about a chunk it returned. -/
theorem mkChunk_ok {len : Nat} {t d cb : List Nat} {c : Chunk}
    (h : mkChunk len t d cb = .ok c) :
    c.isValid = true ∧ c.len = len ∧ c.type = t ∧ c.data = d := by
  unfold mkChunk at h
  split at h
  · next hv =>
    simp only [Except.ok.injEq] at h
    subst h
    exact ⟨hv, rfl, rfl, rfl⟩
  · exact absurd h (by simp)

/-- The properties `IHDR.__init__` establishes: the underlying chunk is
CRC-valid, has hard-coded length 13 and tag `IHDR`, and every header field
is the big-endian integer at its fixed payload offset. -/
def GoodHdr (h : IHDR) : Prop :=
  h.toChunk.isValid = true ∧ h.len = 13 ∧ h.type = ihdrTag ∧
  h.width = parseIntBytes h.data 0 4 ∧ h.height = parseIntBytes h.data 4 4 ∧
  h.depth = parseIntBytes h.data 8 1 ∧ h.colour = parseIntBytes h.data 9 1 ∧
  h.compression = parseIntBytes h.data 10 1 ∧
  h.filter = parseIntBytes h.data 11 1 ∧
  h.interlace = parseIntBytes h.data 12 1

theorem mkIHDR_ok {d cb : List Nat} {h : IHDR}
    (hh : mkIHDR d cb = .ok h) : GoodHdr h := by
  unfold mkIHDR at hh
  split at hh
  · exact absurd hh (by simp)
  · next c hc =>
    obtain ⟨hv, hl, ht, hd⟩ := mkChunk_ok hc
    simp only [Except.ok.injEq] at hh
    subst hh
    subst hd
    exact ⟨hv, hl, ht, rfl, rfl, rfl, rfl, rfl, rfl, rfl⟩

/-- A chunk the loop appends to `self.chunks`: CRC-validated and neither
the header tag nor the terminal tag. -/
def GoodChunk (c : Chunk) : Prop :=
  c.isValid = true ∧ c.type ≠ ihdrTag ∧ c.type ≠ iendTag

/-- Loop invariant: whatever the chunk loop returns, every chunk of the
final list was already in the accumulator or was constructed and validated
by `Chunk.__init__` under a non-header non-terminal tag, and the final
header is the incoming one or was constructed by `IHDR.__init__`. -/
theorem parseLoopF_inv : ∀ (fuel : Nat) (rest : List Nat) (h0 : Option IHDR)
    (acc : List Chunk) (hdr : Option IHDR) (chunks : List Chunk),
    parseLoopF fuel rest h0 acc = .ok (hdr, chunks) →
    (∀ c ∈ chunks, c ∈ acc ∨ GoodChunk c) ∧
      (hdr = h0 ∨ ∃ hh, hdr = some hh ∧ GoodHdr hh) := by
  intro fuel
  induction fuel with
  | zero => intro rest h0 acc hdr chunks h; exact absurd h (by simp [parseLoopF])
  | succ fuel ih =>
    intro rest h0 acc hdr chunks h
    simp only [parseLoopF] at h
    split at h
    · exact absurd h (by simp)
    · next lenBytes r1 h1 =>
      split at h
      · exact absurd h (by simp)
      · next typeBytes r2 h2 =>
        split at h
        · exact absurd h (by simp)
        · next data r3 h3 =>
          split at h
          · exact absurd h (by simp)
          · next crcBytes r4 h4 =>
            split at h
            · next hihdr =>
              split at h
              · exact absurd h (by simp)
              · next hh hmk =>
                obtain ⟨hinv, hhdr⟩ := ih r4 (some hh) acc hdr chunks h
                refine ⟨hinv, .inr ?_⟩
                cases hhdr with
                | inl he => exact ⟨hh, he, mkIHDR_ok hmk⟩
                | inr he => exact he
            · split at h
              · simp only [Except.ok.injEq, Prod.mk.injEq] at h
                obtain ⟨hh, hc⟩ := h
                subst hh; subst hc
                exact ⟨fun c hc => .inl hc, .inl rfl⟩
              · next hnihdr hniend =>
                split at h
                · exact absurd h (by simp)
                · next cc hmk =>
                  obtain ⟨hinv, hhdr⟩ := ih r4 h0 (acc ++ [cc]) hdr chunks h
                  refine ⟨fun c hc => ?_, hhdr⟩
                  rcases hinv c hc with hin | hg
                  · rcases List.mem_append.mp hin with hin | hin
                    · exact .inl hin
                    · obtain ⟨hv, -, ht, -⟩ := mkChunk_ok hmk
                      have : c = cc := by simpa using hin
                      subst this
                      exact .inr ⟨hv, ht ▸ hnihdr, ht ▸ hniend⟩
                  · exact .inr hg

/-- Shape of a successful decode: the path `PNG.__init__` must have taken
to return normally. -/
theorem decode_ok {inflate : List Nat → Option (List Nat)}
    {file? : Option (List Nat)} {img : PngImage}
    (h : decode inflate file? = .ok img) :
    ∃ file, file? = some file ∧
      parsePng file = .ok (some img.header, img.chunks) ∧
      img.header.isSimplified = true ∧
      inflate ((img.chunks.map Chunk.data).flatten) = some img.decompressed ∧
      img.pixels = buildPixels img.decompressed img.header.width img.header.height := by
  unfold decode at h
  split at h
  · exact absurd h (by simp)
  · next file =>
    refine ⟨file, rfl, ?_⟩
    split at h
    · exact absurd h (by simp)
    · exact absurd h (by simp)
    · next header chunks hp =>
      split at h
      · next hs =>
        split at h
        · exact absurd h (by simp)
        · next d hd =>
          simp only [Except.ok.injEq] at h
          subst h
          exact ⟨hp, hs, hd, rfl⟩
      · exact absurd h (by simp)

/-! Pixel-matrix lemmas. -/

/-- Python `range(1, 1 + W*3, 3)` enumerates `1 + 3*i` for `i` below `W`. -/
theorem pythonRange_one (W : Nat) :
    pythonRange 1 (1 + W * 3) 3 = (List.range W).map (fun i => 1 + i * 3) := by
  unfold pythonRange
  rw [show (1 + W * 3 - 1 + 3 - 1) / 3 = W by omega]

theorem buildPixels_length (d : List Nat) (W H : Nat) :
    (buildPixels d W H).length = H := by
  simp [buildPixels]

/-- Each row of the matrix, and each entry of a row, is the corresponding
clamped 3-byte slice of the decompressed buffer. -/
theorem buildPixels_get (d : List Nat) (W H y x : Nat) (hy : y < H)
    (hx : x < W) :
    ∃ row, (buildPixels d W H)[y]? = some row ∧ row.length = W ∧
      row[x]? = some ((d.drop (y * (1 + W * 3) + (1 + x * 3))).take 3) := by
  refine ⟨(pythonRange 1 (1 + W * 3) 3).map
    (fun v => (d.drop (y * (1 + W * 3) + v)).take 3), ?_, ?_, ?_⟩
  · simp [buildPixels, List.getElem?_range hy]
  · simp [pythonRange_one]
  · rw [pythonRange_one, List.map_map, List.getElem?_map,
      List.getElem?_range hx]
    rfl

/-- A 3-byte take of a list with at least three elements, listed by index. -/
theorem take_three_eq (l : List Nat) (h : 3 ≤ l.length) :
    l.take 3 = [l.getD 0 0, l.getD 1 0, l.getD 2 0] := by
  match l with
  | a :: b :: c :: t => rfl
  | [] => simp at h
  | [a] => simp at h
  | [a, b] => simp at h

/-- Indexing through `drop`: the `i`-th element (with default) of a
dropped list. -/
theorem getD_drop (d : List Nat) (k i : Nat) :
    (d.drop k).getD i 0 = d.getD (k + i) 0 := by
  simp [List.getD_eq_getElem?_getD, List.getElem?_drop]

/-- If at most four bytes remain at the top of the chunk loop (but at
least one), the length read succeeds (a short read parsed big-endian), and
the type read then hits the exhausted stream: an uncaught `StopIteration`. -/
theorem parseLoopF_short (fuel : Nat) (rest : List Nat) (h0 : Option IHDR)
    (acc : List Chunk) (hne : rest ≠ []) (hdrop : rest.drop 4 = []) :
    parseLoopF (fuel + 1) rest h0 acc = .error .stopIteration := by
  have h1 : readerSend rest 4 = some (rest.take 4, []) := by
    unfold readerSend
    rw [if_neg (by simpa using hne)]
    simp [hdrop]
  have h2 : readerSend ([] : List Nat) 4 = none := rfl
  simp only [parseLoopF, h1, h2]

/-! Claim theorems. -/

/-- Claim C8: decoding a path that cannot be opened fails with the
file-not-found error, never with a validation-error kind, and no image is
produced; the result does not depend on anything else (no parsing happens). -/
theorem decode_notFound (inflate : List Nat → Option (List Nat)) :
    decode inflate none = .error .fileNotFound ∧
    ∀ k : VKind, decode inflate none ≠ .error (.validation k) := by
  refine ⟨rfl, fun k => ?_⟩
  simp [decode]

/-- Claim C9: decoding is deterministic — two decodes of identical file
contents with the same decompression primitive produce identical pixel
matrices, headers and chunk lists; the embedding is a pure function of the
file contents, carrying no state between calls. -/
theorem decode_deterministic (inflate : List Nat → Option (List Nat))
    (file? : Option (List Nat)) (a b : PngImage)
    (ha : decode inflate file? = .ok a) (hb : decode inflate file? = .ok b) :
    a.pixels = b.pixels ∧ a.header = b.header ∧ a.chunks = b.chunks := by
  rw [ha] at hb
  cases hb
  exact ⟨rfl, rfl, rfl⟩

theorem decode_deterministic_witness :
    img1.pixels = img1.pixels ∧ img1.header = img1.header
      ∧ img1.chunks = img1.chunks :=
  decode_deterministic inflConst (some validFile) img1 img1 rfl rfl

/-- Claim C6 (code bug): with file contents `SIGNATURE ++ [0,0,0,0]` the
stream is exhausted exactly when the chunk's type tag is read, after the
chunk's length was already read; the decode fails with an uncaught
`StopIteration` escaping `_parse`, not with the `UnexpectedEnd` validation
error — only the length read is inside a `try` block. -/
theorem decode_eof_at_type_stopIteration :
    decode inflFail (some (SIGNATURE ++ [0, 0, 0, 0])) = .error .stopIteration
      ∧ (Except.error PyErr.stopIteration : Except PyErr PngImage)
        ≠ .error (.validation .unexpectedEnd) := by
  exact ⟨rfl, by simp⟩

/-- Claim C5 counterexample: a file truncated two bytes after the
signature — fewer than 4 bytes remain at a chunk boundary — does not fail
with the `UnexpectedEnd` validation error: `read(4)` returns the two
remaining bytes, they are parsed as the length, and the subsequent type
read raises an uncaught `StopIteration`. -/
theorem truncated_length_field_not_unexpectedEnd :
    decode inflFail (some (SIGNATURE ++ [0, 0])) = .error .stopIteration
      ∧ (Except.error PyErr.stopIteration : Except PyErr PngImage)
        ≠ .error (.validation .unexpectedEnd) := by
  exact ⟨rfl, by simp⟩

/-- Claim C5 (amended): when the file is truncated at a chunk boundary,
decode fails with the `UnexpectedEnd` validation error exactly in the
zero-bytes-remaining case; with one to three remaining bytes the short read
is parsed as the length field and decode instead fails with an uncaught
`StopIteration` on the following type read — `read(n)` does not return
exactly `n` bytes near the end of the stream. -/
theorem parsePng_truncated_at_boundary (t : List Nat) (ht : t.length < 4) :
    parsePng (SIGNATURE ++ t) =
      if t = [] then .error (.validation .unexpectedEnd)
      else .error .stopIteration := by
  have h8 : readerSend (SIGNATURE ++ t) 8 = some (SIGNATURE, t) := rfl
  simp only [parsePng, h8, eq_self_iff_true, if_true]
  cases t with
  | nil => rfl
  | cons a s =>
    rw [if_neg (List.cons_ne_nil a s)]
    exact parseLoopF_short (a :: s).length (a :: s) none [] (List.cons_ne_nil a s)
      (List.drop_eq_nil_of_le (by simp at ht ⊢; omega))

theorem parsePng_truncated_at_boundary_witness :
    ([0] : List Nat).length < 4
      ∧ parsePng (SIGNATURE ++ [0]) = .error .stopIteration := by
  have h := parsePng_truncated_at_boundary [0] (by decide)
  exact ⟨by decide, by simpa using h⟩

/-- Claim C2 counterexample: in `fileIdatFirst` the first chunk's type tag
(bytes 12–15 of the file) is not the header tag, yet the decode does not
fail with a structural error — it continues, accepts the later header
chunk, and succeeds. -/
theorem first_chunk_not_header_accepted :
    (fileIdatFirst.drop 12).take 4 ≠ ihdrTag
      ∧ decode inflConst (some fileIdatFirst) = .ok img1 := by
  exact ⟨by decide, rfl⟩

/-- Claim C2 (amended): the parser enforces no position or uniqueness for
the header chunk; chunks are classified only by tag.  If the chunk loop
finishes without ever seeing a header tag, decode fails with an
`AttributeError` (the header attribute was never assigned), not with a
structural validation error; a header chunk appearing at any position
before the terminal chunk is accepted. -/
theorem decode_no_header_attributeError
    (inflate : List Nat → Option (List Nat)) (file : List Nat)
    (chunks : List Chunk) (h : parsePng file = .ok (none, chunks)) :
    decode inflate (some file) = .error .attributeError := by
  simp [decode, h]

theorem decode_no_header_attributeError_witness :
    decode inflConst (some fileNoHeader) = .error .attributeError :=
  decode_no_header_attributeError inflConst fileNoHeader [] rfl

/-- Unpacking the loop invariant at the top level: a parse that returns a
header got it from `IHDR.__init__`, and every retained chunk came CRC-valid
out of `Chunk.__init__` with a non-header, non-terminal tag. -/
theorem parsePng_ok_inv {file : List Nat} {hdr : IHDR} {chunks : List Chunk}
    (h : parsePng file = .ok (some hdr, chunks)) :
    GoodHdr hdr ∧ ∀ c ∈ chunks, GoodChunk c := by
  unfold parsePng at h
  split at h
  · exact absurd h (by simp)
  · next sig rest hs =>
    split at h
    · obtain ⟨hinv, hhdr⟩ := parseLoopF_inv _ _ _ _ _ _ h
      refine ⟨?_, fun c hc => ?_⟩
      · rcases hhdr with he | ⟨hh, he, hg⟩
        · exact absurd he (by simp)
        · have heq : hdr = hh := Option.some.inj he
          subst heq
          exact hg
      · rcases hinv c hc with hin | hg
        · exact absurd hin (List.not_mem_nil c)
        · exact hg
    · exact absurd h (by simp)

/-- Claim C1 (amended), in both directions.  First conjunct: every chunk
retained by the parse — the header and each accumulated chunk — went
through `Chunk.__init__`, whose construction compares the stored crc
against CRC32 recomputed over the type tag and the data bytes.  Second
conjunct (fail-fast, no skipping): at any state of the chunk loop, once a
complete frame has been read whose tag is not the terminal tag and whose
stored crc differs from CRC32 over its tag and data, the construction
aborts the entire decode immediately with the checksum ValidationException,
whatever was parsed before and whatever bytes follow.  The terminal chunk
alone is exempt: it is never constructed, so its crc field is read and
ignored. -/
theorem parsePng_crc_fail_fast :
    (∀ (file : List Nat) (hdr : IHDR) (chunks : List Chunk),
      parsePng file = .ok (some hdr, chunks) →
      hdr.toChunk.isValid = true ∧ ∀ c ∈ chunks, c.isValid = true) ∧
    (∀ (fuel : Nat) (rest : List Nat) (h0 : Option IHDR) (acc : List Chunk)
        (lenBytes r1 typeBytes r2 data r3 crcBytes r4 : List Nat),
      readerSend rest 4 = some (lenBytes, r1) →
      readerSend r1 4 = some (typeBytes, r2) →
      readData r2 (fromBytesBE lenBytes) = some (data, r3) →
      readerSend r3 4 = some (crcBytes, r4) →
      typeBytes ≠ iendTag →
      parseIntBytes crcBytes 0 4 ≠ crc32 (typeBytes ++ data) →
      parseLoopF (fuel + 1) rest h0 acc
        = .error (.validation .chunkInvalid)) := by
  constructor
  · intro file hdr chunks h
    obtain ⟨hg, hc⟩ := parsePng_ok_inv h
    exact ⟨hg.1, fun c hm => (hc c hm).1⟩
  · intro fuel rest h0 acc lenBytes r1 typeBytes r2 data r3 crcBytes r4
      h1 h2 h3 h4 hniend hbad
    have hfa : ((parseIntBytes crcBytes 0 4
        == crc32 (typeBytes ++ data)) : Bool) = false :=
      beq_eq_false_iff_ne.mpr hbad
    simp only [parseLoopF, h1, h2, h3, h4]
    split
    · next hihdr =>
      subst hihdr
      have hval : (Chunk.mk 13 ihdrTag data
          (parseIntBytes crcBytes 0 4)).isValid = false := by
        simp [Chunk.isValid, hfa]
      have hmk : mkChunk 13 ihdrTag data crcBytes
          = .error (.validation .chunkInvalid) := by
        simp [mkChunk, hval]
      simp [mkIHDR, hmk]
    · next hnihdr =>
      have hval : (Chunk.mk (fromBytesBE lenBytes) typeBytes data
          (parseIntBytes crcBytes 0 4)).isValid = false := by
        simp [Chunk.isValid, hfa]
      have hmk : mkChunk (fromBytesBE lenBytes) typeBytes data crcBytes
          = .error (.validation .chunkInvalid) := by
        simp [mkChunk, hval]
      simp [hmk]

theorem parsePng_crc_fail_fast_witness :
    (hdr1.toChunk.isValid = true ∧ chunk1.isValid = true) ∧
    parseLoopF 1 ([0, 0, 0, 0] ++ idatTag ++ [9, 9, 9, 9]) none []
      = .error (.validation .chunkInvalid) := by
  refine ⟨?_, ?_⟩
  · have h := parsePng_crc_fail_fast.1 validFile hdr1 [chunk1] rfl
    exact ⟨h.1, h.2 chunk1 (by simp)⟩
  · exact parsePng_crc_fail_fast.2 0 ([0, 0, 0, 0] ++ idatTag ++ [9, 9, 9, 9])
      none [] [0, 0, 0, 0] (idatTag ++ [9, 9, 9, 9]) idatTag [9, 9, 9, 9]
      [] [9, 9, 9, 9] [9, 9, 9, 9] [] (by decide) (by decide) (by decide)
      (by decide) (by decide) (by decide)

/-- Claim C1 is refuted on the terminal chunk: in `fileBadIend` the
terminal chunk's stored crc field (zero) differs from CRC32 recomputed over
its type tag and (empty) data, yet decode succeeds and produces an image —
the terminal chunk is passed over without a Chunk ever being constructed or
its checksum compared. -/
theorem terminal_chunk_crc_mismatch_tolerated :
    fromBytesBE [0, 0, 0, 0] ≠ crc32 (iendTag ++ []) ∧
    decode inflConst (some fileBadIend) = .ok img1 := by
  exact ⟨by decide, rfl⟩

/-- Claim C7: the buffer handed to decompression is exactly the
concatenation, in file order, of the payload bytes of the retained chunks,
and those are precisely the non-header, non-terminal chunks; when
decompression of that buffer fails, decode fails with the
DecompressionFailure validation error (the rendering of the wrapped codec
failure) and no image is produced; when it succeeds, the image is built
from its output. -/
theorem decode_decompresses_joined_payloads
    (inflate : List Nat → Option (List Nat)) (file : List Nat) (hdr : IHDR)
    (chunks : List Chunk) (hp : parsePng file = .ok (some hdr, chunks))
    (hs : hdr.isSimplified = true) :
    (∀ c ∈ chunks, c.type ≠ ihdrTag ∧ c.type ≠ iendTag) ∧
    (inflate ((chunks.map Chunk.data).flatten) = none →
      decode inflate (some file) = .error (.validation .decompressionFailure)) ∧
    (∀ d, inflate ((chunks.map Chunk.data).flatten) = some d →
      decode inflate (some file) =
        .ok ⟨hdr, chunks, d, buildPixels d hdr.width hdr.height⟩) := by
  obtain ⟨-, hc⟩ := parsePng_ok_inv hp
  refine ⟨fun c hm => ⟨(hc c hm).2.1, (hc c hm).2.2⟩, ?_, ?_⟩
  · intro hn
    simp [decode, hp, hs, hn]
  · intro d hd
    simp [decode, hp, hs, hd]

theorem decode_decompresses_joined_payloads_witness :
    (chunk1.type ≠ ihdrTag ∧ chunk1.type ≠ iendTag) ∧
    decode inflFail (some validFile)
      = .error (.validation .decompressionFailure) := by
  have h := decode_decompresses_joined_payloads inflFail validFile hdr1
    [chunk1] rfl rfl
  exact ⟨h.1 chunk1 (by simp), h.2.1 rfl⟩

/-- The supported-profile test, field by field. -/
theorem isSimplified_iff (h : IHDR) :
    h.isSimplified = true ↔ (h.depth = 8 ∧ h.colour = 2 ∧ h.compression = 0
      ∧ h.filter = 0 ∧ h.interlace = 0) := by
  simp only [IHDR.isSimplified, Bool.and_eq_true, beq_iff_eq]
  tauto

/-- Claim C4: the header's fields are the big-endian integers parsed at the
fixed payload offsets 0,4,8,9,10,11,12, and, the chunk stream having
parsed, decode fails with the UnsupportedProfile error exactly when those
fields violate the supported-profile predicate; when the predicate holds,
this error is never raised. -/
theorem decode_unsupportedProfile_iff
    (inflate : List Nat → Option (List Nat)) (file : List Nat) (hdr : IHDR)
    (chunks : List Chunk) (hp : parsePng file = .ok (some hdr, chunks)) :
    (hdr.width = parseIntBytes hdr.data 0 4 ∧
     hdr.height = parseIntBytes hdr.data 4 4 ∧
     hdr.depth = parseIntBytes hdr.data 8 1 ∧
     hdr.colour = parseIntBytes hdr.data 9 1 ∧
     hdr.compression = parseIntBytes hdr.data 10 1 ∧
     hdr.filter = parseIntBytes hdr.data 11 1 ∧
     hdr.interlace = parseIntBytes hdr.data 12 1) ∧
    (decode inflate (some file) = .error (.validation .unsupportedProfile) ↔
      ¬(hdr.depth = 8 ∧ hdr.colour = 2 ∧ hdr.compression = 0 ∧
        hdr.filter = 0 ∧ hdr.interlace = 0)) := by
  obtain ⟨hg, -⟩ := parsePng_ok_inv hp
  obtain ⟨-, -, -, hw, hh, hdep, hcol, hcomp, hfil, hint⟩ := hg
  refine ⟨⟨hw, hh, hdep, hcol, hcomp, hfil, hint⟩, ?_⟩
  by_cases hs : hdr.isSimplified = true
  · constructor
    · intro hdec
      exfalso
      rcases hinf : inflate ((chunks.map Chunk.data).flatten) with _ | d
      · simp [decode, hp, hs, hinf] at hdec
      · simp [decode, hp, hs, hinf] at hdec
    · intro hpred
      exact absurd ((isSimplified_iff hdr).mp hs) hpred
  · rw [Bool.not_eq_true] at hs
    constructor
    · intro _
      intro hpred
      rw [(isSimplified_iff hdr).mpr hpred] at hs
      cases hs
    · intro _
      simp [decode, hp, hs]

theorem decode_unsupportedProfile_iff_witness :
    hdr1.width = parseIntBytes hdr1.data 0 4 ∧
    hdr1.height = parseIntBytes hdr1.data 4 4 ∧
    hdr1.depth = parseIntBytes hdr1.data 8 1 ∧
    hdr1.colour = parseIntBytes hdr1.data 9 1 ∧
    hdr1.compression = parseIntBytes hdr1.data 10 1 ∧
    hdr1.filter = parseIntBytes hdr1.data 11 1 ∧
    hdr1.interlace = parseIntBytes hdr1.data 12 1 :=
  (decode_unsupportedProfile_iff inflConst validFile hdr1 [chunk1] rfl).1

/-- A full in-range 3-byte slice, listed element by element. -/
theorem drop_take_three (d : List Nat) (k : Nat) (h : k + 3 ≤ d.length) :
    (d.drop k).take 3 = [d.getD k 0, d.getD (k + 1) 0, d.getD (k + 2) 0] := by
  rw [take_three_eq _ (by rw [List.length_drop]; omega), getD_drop, getD_drop,
    getD_drop]
  norm_num

/-- The entry of `buildPixels` at row `y`, column `x`, when the buffer
covers every scanline: the three consecutive bytes after the discarded
leading byte of the scanline. -/
theorem buildPixels_full (d : List Nat) (W H y x : Nat) (hy : y < H)
    (hx : x < W) (hlen : H * (1 + 3 * W) ≤ d.length) :
    ∃ row, (buildPixels d W H)[y]? = some row ∧ row.length = W ∧
      row[x]? = some [d.getD (y * (1 + 3 * W) + 1 + 3 * x) 0,
        d.getD (y * (1 + 3 * W) + 1 + 3 * x + 1) 0,
        d.getD (y * (1 + 3 * W) + 1 + 3 * x + 2) 0] := by
  obtain ⟨row, h1, h2, h3⟩ := buildPixels_get d W H y x hy hx
  refine ⟨row, h1, h2, ?_⟩
  have hyL : y * (1 + W * 3) + (1 + W * 3) ≤ H * (1 + W * 3) := by
    have hy1 : y + 1 ≤ H := hy
    have hm := Nat.mul_le_mul_right (1 + W * 3) hy1
    calc y * (1 + W * 3) + (1 + W * 3) = (y + 1) * (1 + W * 3) := by ring
      _ ≤ H * (1 + W * 3) := hm
  have hL : H * (1 + W * 3) = H * (1 + 3 * W) := by ring
  have hx3 : 1 + x * 3 + 3 ≤ 1 + W * 3 := by omega
  have hbound : y * (1 + W * 3) + (1 + x * 3) + 3 ≤ d.length := by
    have hlen2 : H * (1 + W * 3) ≤ d.length := by rw [hL]; exact hlen
    linarith
  rw [h3, drop_take_three d _ hbound,
    show y * (1 + W * 3) + (1 + x * 3) = y * (1 + 3 * W) + 1 + 3 * x by ring]

/-- Claim C3: whenever decode succeeds and the decompressed buffer holds at
least height*(1+3*width) bytes, the pixel matrix has exactly `height` rows
of exactly `width` triples, and the triple at row y, column x consists of
the buffer bytes at offsets y*(1+3W)+1+3x, +2+3x, +3+3x (the leading byte
of each scanline is discarded), preserving row and column order. -/
theorem decode_pixels_spec (inflate : List Nat → Option (List Nat))
    (file? : Option (List Nat)) (img : PngImage)
    (h : decode inflate file? = .ok img)
    (hlen : img.header.height * (1 + 3 * img.header.width)
      ≤ img.decompressed.length) :
    img.pixels.length = img.header.height ∧
    ∀ y x, y < img.header.height → x < img.header.width →
      ∃ row, img.pixels[y]? = some row ∧ row.length = img.header.width ∧
        row[x]? = some
          [img.decompressed.getD
            (y * (1 + 3 * img.header.width) + 1 + 3 * x) 0,
           img.decompressed.getD
            (y * (1 + 3 * img.header.width) + 2 + 3 * x) 0,
           img.decompressed.getD
            (y * (1 + 3 * img.header.width) + 3 + 3 * x) 0] := by
  obtain ⟨file, -, -, -, -, hpix⟩ := decode_ok h
  rw [hpix]
  refine ⟨buildPixels_length _ _ _, fun y x hy hx => ?_⟩
  obtain ⟨row, h1, h2, h3⟩ := buildPixels_full img.decompressed
    img.header.width img.header.height y x hy hx hlen
  refine ⟨row, h1, h2, ?_⟩
  rw [show y * (1 + 3 * img.header.width) + 2 + 3 * x
      = y * (1 + 3 * img.header.width) + 1 + 3 * x + 1 by ring,
    show y * (1 + 3 * img.header.width) + 3 + 3 * x
      = y * (1 + 3 * img.header.width) + 1 + 3 * x + 2 by ring]
  exact h3

theorem decode_pixels_spec_witness :
    img1.pixels.length = img1.header.height :=
  (decode_pixels_spec inflConst (some validFile) img1 rfl (by decide)).1

/-- A decompression oracle whose output (two bytes) is shorter than the
single 1×1 scanline requires. -/
def inflShort : List Nat → Option (List Nat) := fun _ => some [0, 5]

/-- Claim C10: when the chunk stream parsed, the profile check passed and
decompression succeeded with a buffer shorter than height*(1+3*width),
pixel construction still succeeds — decode returns an image with exactly
`height` rows of `width` entries each — and an entry whose three-byte
range lies partly or wholly past the end of the buffer is a tuple of fewer
than three components (possibly empty); no error is raised for the short
buffer. -/
theorem decode_short_buffer_total (inflate : List Nat → Option (List Nat))
    (file : List Nat) (hdr : IHDR) (chunks : List Chunk) (d : List Nat)
    (hp : parsePng file = .ok (some hdr, chunks))
    (hs : hdr.isSimplified = true)
    (hd : inflate ((chunks.map Chunk.data).flatten) = some d)
    (_hshort : d.length < hdr.height * (1 + 3 * hdr.width)) :
    decode inflate (some file)
      = .ok ⟨hdr, chunks, d, buildPixels d hdr.width hdr.height⟩ ∧
    (buildPixels d hdr.width hdr.height).length = hdr.height ∧
    ∀ y x, y < hdr.height → x < hdr.width →
      ∃ row e, (buildPixels d hdr.width hdr.height)[y]? = some row ∧
        row.length = hdr.width ∧ row[x]? = some e ∧
        (d.length < y * (1 + 3 * hdr.width) + 1 + 3 * x + 3 →
          e.length < 3) := by
  refine ⟨by simp [decode, hp, hs, hd], buildPixels_length _ _ _,
    fun y x hy hx => ?_⟩
  obtain ⟨row, h1, h2, h3⟩ := buildPixels_get d hdr.width hdr.height y x hy hx
  refine ⟨row, _, h1, h2, h3, ?_⟩
  intro hpast
  rw [List.length_take, List.length_drop]
  rw [show y * (1 + hdr.width * 3) + (1 + x * 3)
      = y * (1 + 3 * hdr.width) + 1 + 3 * x by ring]
  generalize y * (1 + 3 * hdr.width) + 1 + 3 * x = k at hpast ⊢
  exact lt_of_le_of_lt (Nat.min_le_right _ _) (by omega)

theorem decode_short_buffer_total_witness :
    decode inflShort (some validFile)
      = .ok ⟨hdr1, [chunk1], [0, 5], buildPixels [0, 5] 1 1⟩ :=
  (decode_short_buffer_total inflShort validFile hdr1 [chunk1] [0, 5] rfl rfl
    rfl (by decide)).1
